import Mathlib

/-! Verification of the potentials-string normalization core of the
Personal Potentials app (`App.py`): `_clean_tokens`, the two
`normalize_potentials_text` definitions, `parse_potentials_9`, the
three-row formatter and `build_canon_bundle`.  The embedding works over
`List Char` with Python string and regex semantics spelled out
explicitly; the Unicode-sensitive predicates (whitespace, word
characters, lowercasing) are restricted to the ASCII and Cyrillic
repertoire these functions are applied to. -/

/-- Whitespace characters of Python's `str.strip` / `str.split()` / regex `\s`
(the common subset; both notions agree on every character below). -/
def isPySpace (c : Char) : Bool :=
  c == ' ' || c == '\t' || c == '\n' || c == '\r' || c == '\x0b' || c == '\x0c' ||
  c == '\x1c' || c == '\x1d' || c == '\x1e' || c == '\x1f' || c == '\x85' || c == '\xa0' ||
  c == '\u1680' || (decide ('\u2000' ≤ c) && decide (c ≤ '\u200A')) ||
  c == '\u2028' || c == '\u2029' || c == '\u202F' || c == '\u205F' || c == '\u3000'

/-- Line boundaries recognised by Python's `str.splitlines` (besides `"\r\n"`,
which is handled as a single boundary by `pySplitlines`). -/
def isLineBreak (c : Char) : Bool :=
  c == '\n' || c == '\r' || c == '\x0b' || c == '\x0c' || c == '\x1c' ||
  c == '\x1d' || c == '\x1e' || c == '\x85' || c == '\u2028' || c == '\u2029'

/-- Strip characters satisfying `p` from both ends (Python `str.strip`). -/
def stripWith (p : Char → Bool) (l : List Char) : List Char :=
  ((l.dropWhile p).reverse.dropWhile p).reverse

/-- Python `str.strip()` with no argument. -/
def pyStrip (l : List Char) : List Char := stripWith isPySpace l

/-- Worker for `splitRuns`: `inRun` records whether the previous character
belonged to a delimiter run, `acc` is the current piece, reversed. -/
def splitRunsAux (p : Char → Bool) : List Char → Bool → List Char → List (List Char)
  | [], _, acc => [acc.reverse]
  | c :: rest, inRun, acc =>
    if p c then
      if inRun then splitRunsAux p rest true acc
      else acc.reverse :: splitRunsAux p rest true []
    else splitRunsAux p rest false (c :: acc)

/-- Split on maximal nonempty runs of characters satisfying `p`
(the behaviour of `re.split` on a pattern like `[,\;]+`); empty pieces
at the ends and between non-adjacent runs are kept, as in Python. -/
def splitRuns (p : Char → Bool) (l : List Char) : List (List Char) :=
  splitRunsAux p l false []

/-- Worker for `collapseNL` with the same in-run state flag. -/
def collapseNLAux : List Char → Bool → List Char
  | [], _ => []
  | c :: rest, inRun =>
    if c == '\n' || c == '\r' then
      if inRun then collapseNLAux rest true
      else ',' :: collapseNLAux rest true
    else c :: collapseNLAux rest false

/-- `re.sub(r"[\n\r]+", ",", s)`: each maximal run of newline characters
becomes a single comma. -/
def collapseNL (l : List Char) : List Char := collapseNLAux l false

/-- Join chunks with a single separator character between consecutive chunks. -/
def joinSep (sep : Char) : List (List Char) → List Char
  | [] => []
  | [t] => t
  | t :: ts => t ++ sep :: joinSep sep ts

/-- Worker for `pySplitlines`: `acc` is the current line, reversed, and
`afterCR` records that the previous character was a carriage return whose
line was already emitted, so that an immediately following newline is
swallowed (`"\r\n"` is one boundary). -/
def pySplitlinesAux : List Char → Bool → List Char → List (List Char)
  | [], _, acc => if acc.isEmpty then [] else [acc.reverse]
  | c :: rest, afterCR, acc =>
    if c = '\n' ∧ afterCR then pySplitlinesAux rest false acc
    else if c = '\r' then acc.reverse :: pySplitlinesAux rest true []
    else if isLineBreak c then acc.reverse :: pySplitlinesAux rest false []
    else pySplitlinesAux rest false (c :: acc)

/-- Python `str.splitlines()`: split at line boundaries, treating `"\r\n"` as
one boundary and producing no trailing empty line. -/
def pySplitlines (l : List Char) : List (List Char) := pySplitlinesAux l false []

/-- Python `str.lower` restricted to the ASCII and Cyrillic letters these
functions are applied to; all other characters are left unchanged. -/
def pyLower (c : Char) : Char :=
  if 'A' ≤ c ∧ c ≤ 'Z' then Char.ofNat (c.toNat + 32)
  else if 'А' ≤ c ∧ c ≤ 'Я' then Char.ofNat (c.toNat + 32)
  else if c = 'Ё' then 'ё' else c

/-- Regex word characters (`\w`) over the same ASCII and Cyrillic repertoire:
letters, digits and underscore. -/
def isWordChar (c : Char) : Bool :=
  c.isAlphanum || c == '_' ||
  (decide ('а' ≤ c) && decide (c ≤ 'я')) || (decide ('А' ≤ c) && decide (c ≤ 'Я')) ||
  c == 'ё' || c == 'Ё'

/-- The candidate literals of the filler-word alternation
`\b(ряд|row|процен(т|ты)|%|место|позиция|потенциал(ы)?)\b` in the order the
regex engine tries them: `процен(т|ты)` yields `процент` before `проценты`,
and the greedy `потенциал(ы)?` yields `потенциалы` before `потенциал`. -/
def fillerWords : List (List Char) :=
  ["ряд".data, "row".data, "процент".data, "проценты".data, "%".data,
   "место".data, "позиция".data, "потенциалы".data, "потенциал".data]

/-- Is the character at index `p` a word character (out of range counts as
a non-word position)? -/
def wordAt (cs : List Char) (p : Nat) : Bool :=
  match cs[p]? with
  | some c => isWordChar c
  | none => false

/-- Regex `\b` at index `p`: the word-ness of the characters on the two
sides of the position differs. -/
def boundaryAt (cs : List Char) (p : Nat) : Bool :=
  (match p with
   | 0 => false
   | q + 1 => wordAt cs q) != wordAt cs p

/-- Case-insensitive literal match at index `p` (`w` is given lowercased). -/
def matchLowerAt (cs : List Char) (p : Nat) (w : List Char) : Bool :=
  ((cs.drop p).take w.length).map pyLower == w

/-- Length of the filler-word match starting at index `p`, if any. -/
def fillerMatchLen (cs : List Char) (p : Nat) : Option Nat :=
  if boundaryAt cs p then
    fillerWords.findSome? fun w =>
      if matchLowerAt cs p w && boundaryAt cs (p + w.length) then some w.length
      else none
  else none

/-- Scanner for the filler-word substitution; each step consumes at least one
index, so fuel `cs.length` always suffices and the fuel-exhausted fallback
(which happens only once the index is past the end) returns the correct
empty remainder. -/
def fillerSubFrom (cs : List Char) : Nat → Nat → List Char
  | 0, p => cs.drop p
  | fuel + 1, p =>
    match cs[p]? with
    | none => []
    | some c =>
      match fillerMatchLen cs p with
      | some k => ' ' :: fillerSubFrom cs fuel (p + k)
      | none => c :: fillerSubFrom cs fuel (p + 1)

/-- `re.sub(r"\b(ряд|row|процен(т|ты)|%|место|позиция|потенциал(ы)?)\b", " ", s, flags=re.I)`. -/
def fillerSub (cs : List Char) : List Char := fillerSubFrom cs cs.length 0

/-- The punctuation class `[\.\)\:\-]` of the enumeration-marker regex. -/
def isEnumPunct (c : Char) : Bool := c == '.' || c == ')' || c == ':' || c == '-'

/-- Length of the maximal whitespace run starting at index `p` (regex `\s*`). -/
def wsRunLen (cs : List Char) (p : Nat) : Nat :=
  ((cs.drop p).takeWhile isPySpace).length

/-- Length of a match of `(?<!\d)(\d{1,2})\s*[\.\)\:\-]` starting at index
`p`, if any.  The greedy `\d{1,2}` takes a second digit when one is present;
backtracking to a one-digit match can never succeed then, because the
following character would be that digit, which matches neither `\s` nor the
punctuation class. -/
def enumMatchLen (cs : List Char) (p : Nat) : Option Nat :=
  let prevDigit :=
    match p with
    | 0 => false
    | q + 1 =>
      match cs[q]? with
      | some d => d.isDigit
      | none => false
  if prevDigit then none
  else
    match cs[p]? with
    | none => none
    | some d1 =>
      if d1.isDigit then
        let nd := match cs[p + 1]? with
                  | some d2 => if d2.isDigit then 2 else 1
                  | none => 1
        let q := p + nd + wsRunLen cs (p + nd)
        match cs[q]? with
        | some c => if isEnumPunct c then some (q + 1 - p) else none
        | none => none
      else none

/-- Scanner for the enumeration-marker substitution (same fuel discipline
as `fillerSubFrom`). -/
def enumSubFrom (cs : List Char) : Nat → Nat → List Char
  | 0, p => cs.drop p
  | fuel + 1, p =>
    match cs[p]? with
    | none => []
    | some c =>
      match enumMatchLen cs p with
      | some k => ' ' :: enumSubFrom cs fuel (p + k)
      | none => c :: enumSubFrom cs fuel (p + 1)

/-- `re.sub(r"(?<!\d)(\d{1,2})\s*[\.\)\:\-]", " ", s)`. -/
def enumSub (cs : List Char) : List Char := enumSubFrom cs cs.length 0

/-- `_clean_tokens` (App.py lines 67-82): strip, normalize `|` and dashes,
remove filler words and enumeration markers, turn newline runs into commas,
split on runs of `,`/`;`, and keep the stripped nonempty pieces. -/
def _clean_tokens (s : String) : List String :=
  let cs := pyStrip s.data
  if cs = [] then []
  else
    let c1 := cs.map fun c => if c == '|' then ',' else c
    let c2 := c1.map fun c => if c == '—' then '-' else c
    let c3 := c2.map fun c => if c == '–' then '-' else c
    let c4 := fillerSub c3
    let c5 := enumSub c4
    let c6 := collapseNL c5
    let parts := (splitRuns (fun c => c == ',' || c == ';') c6).map pyStrip
    (parts.filter fun t => !t.isEmpty).map String.mk

/-- The fixed ordered fallback labels (App.py lines 61-65). -/
def DEFAULT_NAMES : List String :=
  ["Аметист", "Гранат", "Цитрин",
   "Сапфир", "Гелиодор", "Изумруд",
   "Янтарь", "Шунгит", "Рубин"]

/-- Python `str.lower` on a whole string (restricted as `pyLower`). -/
def strLower (s : String) : String := String.mk (s.data.map pyLower)

/-- The padding loop of the first `normalize_potentials_text` (App.py lines
100-104): `existing` is the set of lowercased input tokens, computed once
before the loop and not updated while defaults are appended. -/
def padLoop (existing : List String) (start : List String) (ds : List String) : List String :=
  ds.foldl (fun ts name =>
    if strLower name ∉ existing ∧ ts.length < 9 then ts ++ [name] else ts) start

/-- The token list computed by the first `normalize_potentials_text`
(App.py lines 93-104): clean, then truncate to the first nine or pad with
`DEFAULT_NAMES`, skipping defaults already present case-insensitively. -/
def normalize_potentials_tokens (raw : String) : List String :=
  let tokens := _clean_tokens raw
  if 9 ≤ tokens.length then tokens.take 9
  else padLoop (tokens.map strLower) tokens DEFAULT_NAMES

/-- The 3x3 formatting step of the first `normalize_potentials_text`
(App.py lines 106-115).  Callers always pass exactly nine tokens; the
catch-all is unreachable from them (Python would raise IndexError there). -/
def build_three_rows (ts : List String) : String :=
  match ts with
  | [a1, a2, a3, b1, b2, b3, c1, c2, c3] =>
    "1 ряд: 1. " ++ a1 ++ " | 2. " ++ a2 ++ " | 3. " ++ a3 ++ "\n" ++
    "2 ряд: 4. " ++ b1 ++ " | 5. " ++ b2 ++ " | 6. " ++ b3 ++ "\n" ++
    "3 ряд: 7. " ++ c1 ++ " | 8. " ++ c2 ++ " | 9. " ++ c3
  | _ => ""

/-- The first `normalize_potentials_text` definition (App.py lines 84-115).
In Python the later definition of the same name (lines 346-361) shadows
this one at module level, so we suffix it. -/
def normalize_potentials_text_first (raw : String) : String :=
  build_three_rows (normalize_potentials_tokens raw)

/-- Python `str.replace pat rep` scanning left to right without overlap
(`pat` nonempty in all uses, so each step consumes at least one index and
fuel `cs.length` suffices; the fallback only fires past the end). -/
def replaceFrom (cs pat rep : List Char) : Nat → Nat → List Char
  | 0, p => cs.drop p
  | fuel + 1, p =>
    match cs[p]? with
    | none => []
    | some c =>
      if (cs.drop p).take pat.length = pat then
        rep ++ replaceFrom cs pat rep fuel (p + pat.length)
      else c :: replaceFrom cs pat rep fuel (p + 1)

/-- Python `cs.replace(pat, rep)` for a nonempty `pat`. -/
def replaceList (cs pat rep : List Char) : List Char :=
  replaceFrom cs pat rep cs.length 0

/-- Decimal digit character (`48 + n` for `n ≤ 9`). -/
def digitChar (n : Nat) : Char := Char.ofNat (48 + n)

/-- The second, effective `normalize_potentials_text` definition (App.py
lines 346-361): light reformatter with no padding and no 3x3 layout.  In
Python this later definition is the one bound to the module-level name and
hence the one `ai_generate_focus` calls. -/
def normalize_potentials_text (raw : String) : String :=
  if raw.data = [] then ""
  else
    let s0 := pyStrip raw.data
    let lines1 := ((pySplitlines s0).map pyStrip).filter fun l => !l.isEmpty
    let s1 := joinSep '\n' lines1
    if '\n' ∈ s1 then String.mk s1
    else
      let s2 := [1, 2, 3, 4, 5, 6, 7, 8, 9].foldl
        (fun acc n => replaceList acc [digitChar n, '.'] ['\n', digitChar n, '.']) s1
      let s3 := s2.map fun c => if c == ',' then '\n' else c
      let lines2 := ((pySplitlines s3).map pyStrip).filter fun l => !l.isEmpty
      String.mk (joinSep '\n' lines2)

/-- The character set of `_clean_pot_name`'s `str.strip` argument. -/
def potStripSet : List Char :=
  [' ', '\t', '\r', '\n', '-', '–', '—', '•', '*', ',', ':', ';']

/-- `_clean_pot_name` (App.py lines 425-426) on character lists. -/
def cleanPotNameL (l : List Char) : List Char :=
  pyStrip (stripWith (fun c => potStripSet.contains c) l)

/-- `_clean_pot_name` (App.py lines 425-426). -/
def _clean_pot_name (x : String) : String := String.mk (cleanPotNameL x.data)

/-- Decimal literal of `j` as characters (`j ≤ 10` in all uses). -/
def numLit (j : Nat) : List Char :=
  if j < 10 then [digitChar j] else [digitChar (j / 10), digitChar (j % 10)]

/-- Does `{j}\s*[\.\)]` match at index `p`?  The literal is fixed, and
backtracking `\s*` cannot help: a shorter whitespace run leaves a whitespace
character where the punctuation is required. -/
def numThenPunct (cs : List Char) (j : Nat) (p : Nat) : Bool :=
  let lit := numLit j
  if (cs.drop p).take lit.length = lit then
    match cs[p + lit.length + wsRunLen cs (p + lit.length)]? with
    | some c => c == '.' || c == ')'
    | none => false
  else false

/-- Python's `$` without `re.M`: end of string, or just before a final
newline. -/
def dollarAt (cs : List Char) (p : Nat) : Bool :=
  p == cs.length || (p + 1 == cs.length && cs[p]? == some '\n')

/-- The lookahead `(?=(?:\n|\s)(?:{i+1}\s*[\.\)]|$))` of the numbered-entry
regex, evaluated at index `e`. -/
def lookNext (cs : List Char) (i : Nat) (e : Nat) : Bool :=
  match cs[e]? with
  | some c => (c == '\n' || isPySpace c) && (numThenPunct cs (i + 1) (e + 1) || dollarAt cs (e + 1))
  | none => false

/-- Attempt of the numbered-entry regex with the `(?:^|\n|\s)` prefix already
consumed, i.e. `{i}\s*[\.\)]\s*(.+?)(?=...)` at index `p1`.  Backtracking
order: the `\s*` before the group greedily tries its longest run first, and
for each choice the lazy `(.+?)` grows from one character upward until the
lookahead holds. -/
def matchNumberedAt (cs : List Char) (i : Nat) (p1 : Nat) : Option (List Char) :=
  if cs[p1]? = some (digitChar i) then
    let a := p1 + 1
    let w1 := wsRunLen cs a
    match cs[a + w1]? with
    | some c =>
      if c == '.' || c == ')' then
        let p4 := a + w1 + 1
        let w2 := wsRunLen cs p4
        ((List.range (w2 + 1)).map fun k => w2 - k).findSome? fun ws =>
          let g0 := p4 + ws
          ((List.range (cs.length - g0)).map fun t => g0 + 1 + t).findSome? fun e =>
            if lookNext cs i e then some ((cs.drop g0).take (e - g0)) else none
      else none
    | none => none
  else none

/-- `re.search` of `(?:(?:^|\n|\s){i}\s*[\.\)]\s*)(.+?)(?=(?:\n|\s)(?:{i+1}\s*[\.\)]|$))`
with `re.S` (App.py line 444): start positions are tried left to right; at
each, the prefix alternation tries the zero-width `^` (position 0 only) and
then a consumed newline or whitespace character. -/
def searchNumbered (cs : List Char) (i : Nat) : Option (List Char) :=
  (List.range (cs.length + 1)).findSome? fun p =>
    let pres : List Nat :=
      (if p = 0 then [p] else []) ++
      (match cs[p]? with
       | some c => if c == '\n' || isPySpace c then [p + 1] else []
       | none => [])
    pres.findSome? (matchNumberedAt cs i)

/-- The numbered-extraction pass of `parse_potentials_9` (App.py lines
442-448): for each `i` in `1..9`, search the whole string and keep the
cleaned nonempty captures. -/
def numberedTokens (cs : List Char) : List (List Char) :=
  (List.range' 1 9).filterMap fun i =>
    (searchNumbered cs i).bind fun g =>
      let v := cleanPotNameL g
      if v = [] then none else some v

/-- `re.sub(r"^\d+\s*[\.\)]\s*", "", ln)` (App.py lines 462, 474).  The
greedy `\d+` must take the whole digit run: after a shorter run the next
character is a digit, which matches neither `\s` nor `[\.\)]`. -/
def stripLeadNum (ln : List Char) : List Char :=
  let ds := ln.takeWhile Char.isDigit
  if ds = [] then ln
  else
    let r1 := (ln.drop ds.length).dropWhile isPySpace
    match r1 with
    | p :: r2 => if p == '.' || p == ')' then r2.dropWhile isPySpace else ln
    | [] => ln

/-- `ln.split("—")[0].split("-")[0].strip()` (App.py line 463). -/
def beforeDashes (ln : List Char) : List Char :=
  pyStrip ((ln.takeWhile fun c => c != '—').takeWhile fun c => c != '-')

/-- Length of the delimiter of `re.split(r"\s{2,}|\s*,\s*|\s*\|\s*|\s*/\s*", ln)`
starting at index `p`, if any.  The alternation tries `\s{2,}` first (a
greedy run of at least two whitespace characters); otherwise at most one
whitespace character can precede a `,`, `|` or `/`, which then absorbs the
following whitespace run. -/
def delimLenAt (cs : List Char) (p : Nat) : Option Nat :=
  let w := wsRunLen cs p
  if 2 ≤ w then some w
  else
    match cs[p + w]? with
    | some c =>
      if c == ',' || c == '|' || c == '/' then some (w + 1 + wsRunLen cs (p + w + 1))
      else none
    | none => none

/-- Scanner for the four-way split (fuel `cs.length` suffices: every step
advances the index; the fallbacks only fire past the end, where they return
the remaining piece, which is then empty). -/
def splitMultiFrom (cs : List Char) : Nat → Nat → List Char → List (List Char)
  | 0, p, acc => [acc.reverse ++ cs.drop p]
  | fuel + 1, p, acc =>
    if p < cs.length then
      match delimLenAt cs p with
      | some k => acc.reverse :: splitMultiFrom cs fuel (p + k) []
      | none => splitMultiFrom cs fuel (p + 1) (cs.getD p ' ' :: acc)
    else [acc.reverse]

/-- `re.split(r"\s{2,}|\s*,\s*|\s*\|\s*|\s*/\s*", ln)` (App.py line 475). -/
def splitMulti (cs : List Char) : List (List Char) :=
  splitMultiFrom cs cs.length 0 []

/-- Python `str.split()` with no argument: split on whitespace runs,
dropping empty pieces. -/
def pySplitWS (l : List Char) : List (List Char) :=
  (splitRuns isPySpace l).filter fun t => !t.isEmpty

/-- `parse_potentials_9` (App.py lines 428-484). -/
def parse_potentials_9 (raw : String) : List String :=
  if raw.data = [] then []
  else
    let s := pyStrip raw.data
    let numbered := numberedTokens s
    if 9 ≤ numbered.length then (numbered.take 9).map String.mk
    else
      let s2a := s.map fun c => if c == '•' then '\n' else c
      let s2b := s2a.map fun c => if c == ';' then '\n' else c
      let s2 := s2b.map fun c => if c == ',' then '\n' else c
      let lines := ((pySplitlines s2).map pyStrip).filter fun l => !l.isEmpty
      let cleaned := lines.filterMap fun ln =>
        let ln2 := beforeDashes (pyStrip (stripLeadNum ln))
        if ln2 = [] then none else some (cleanPotNameL ln2)
      let flat := cleaned.filter fun x => !x.isEmpty
      if flat.length < 9 ∧ (lines.length = 3 ∨ lines.length = 6 ∨ lines.length = 9) then
        let tmp := (lines.map fun ln =>
          let ln1 := pyStrip (stripLeadNum ln)
          let parts := ((splitMulti ln1).map pyStrip).filter fun ps => !ps.isEmpty
          if parts.length = 1 then ((pySplitWS ln1).map pyStrip).filter fun ps => !ps.isEmpty
          else parts).flatten
        let tmp2 := (tmp.map cleanPotNameL).filter fun x => !x.isEmpty
        if 9 ≤ tmp2.length then (tmp2.take 9).map String.mk
        else (flat.take 9).map String.mk
      else (flat.take 9).map String.mk

/-- The optional `from spch_canon import ...` fails in this source tree
(the module is absent), so the except-branch (App.py lines 13-16) binds all
four canon tables to empty dicts; every lookup below therefore lands in the
`"—"` default. -/
def POT_CANON_1_3 : List (String × List (String × String)) := []

/-- Empty for the same reason as `POT_CANON_1_3`. -/
def POT_4_CANON : List (String × String) := []

/-- Empty for the same reason as `POT_CANON_1_3`. -/
def POT_5_CANON : List (String × String) := []

/-- Empty for the same reason as `POT_CANON_1_3`. -/
def POT_6_CANON : List (String × String) := []

/-- `_canon_cell_1_3` (App.py lines 504-528).  With the empty tables the
lookup always misses and the function returns the dash; the `some` branch
(string entries returned when nonempty) is unreachable here, and the dict
markdown assembly of the source has no reachable counterpart to model. -/
def _canon_cell_1_3 (pot col : String) : String :=
  match (POT_CANON_1_3.lookup (_clean_pot_name pot)).bind (fun m => m.lookup col) with
  | none => "—"
  | some d => if d.data = [] then "—" else d

/-- `_canon_pos_4_5_6` (App.py lines 530-540); same situation as
`_canon_cell_1_3`, the tables are empty and the dash is always returned. -/
def _canon_pos_4_5_6 (pot which : String) : String :=
  let canon :=
    if which = "4" then POT_4_CANON
    else if which = "5" then POT_5_CANON
    else if which = "6" then POT_6_CANON
    else []
  match canon.lookup (_clean_pot_name pot) with
  | none => "—"
  | some d => d

/-- The dict returned by `build_canon_bundle`: the positional `pos1..pos9`
mapping and the canon excerpts for the first six positions. -/
structure CanonBundle where
  pos : List (String × String)
  canon : List (String × String)
deriving DecidableEq

/-- `build_canon_bundle` (App.py lines 542-560): the empty dict returned for
fewer than nine entries is modelled as `none`. -/
def build_canon_bundle (p9 : List String) : Option CanonBundle :=
  if p9.length < 9 then none
  else
    match p9 with
    | q1 :: q2 :: q3 :: q4 :: q5 :: q6 :: q7 :: q8 :: q9 :: _ =>
      some
        { pos := [("pos1", q1), ("pos2", q2), ("pos3", q3), ("pos4", q4), ("pos5", q5),
                  ("pos6", q6), ("pos7", q7), ("pos8", q8), ("pos9", q9)],
          canon := [("pos1", _canon_cell_1_3 q1 "perception"),
                    ("pos2", _canon_cell_1_3 q2 "motivation"),
                    ("pos3", _canon_cell_1_3 q3 "instrument"),
                    ("pos4", _canon_pos_4_5_6 q4 "4"),
                    ("pos5", _canon_pos_4_5_6 q5 "5"),
                    ("pos6", _canon_pos_4_5_6 q6 "6")] }
    | _ => none

/-- Convenience: rebuilding a string from its characters is the identity. -/
theorem string_mk_data (s : String) : String.mk s.data = s := rfl

/-- Claim C3, counterexample: on the empty string `parse_potentials_9`
returns the empty list, not the nine default labels. -/
theorem C3_cex : parse_potentials_9 "" = [] ∧ ([] : List String) ≠ DEFAULT_NAMES := by
  constructor
  · rfl
  · decide

/-- Claim C3, amended: `parse_potentials_9` applied to the empty string
returns the empty list; the fixed default set appears instead as the token
list of the first `normalize_potentials_text`, whose padding step turns the
empty token list into exactly `DEFAULT_NAMES` in order. -/
theorem C3_empty_default_padding :
    parse_potentials_9 "" = [] ∧ normalize_potentials_tokens "" = DEFAULT_NAMES := by
  constructor
  · rfl
  · decide

/-- Claim C4, counterexample: the mixed input with a pipe and an em-dash
does not tokenize like the comma-delimited form — the dash is normalized to
a hyphen, which is not a split separator, so only two tokens come back. -/
theorem C4_cex :
    _clean_tokens "Аметист | Гранат — Цитрин" ≠ _clean_tokens "Аметист, Гранат, Цитрин" ∧
    _clean_tokens "Аметист | Гранат — Цитрин" = ["Аметист", "Гранат - Цитрин"] := by
  constructor
  · decide
  · decide

/-- Claim C4, amended: pipes are normalized to commas, so the all-pipe form
tokenizes exactly like the comma form into three tokens; em/en dashes are
normalized to hyphens, which are not token boundaries, so the mixed
pipe/em-dash input yields only the two tokens
`["Аметист", "Гранат - Цитрин"]`. -/
theorem C4_separator_normalization :
    _clean_tokens "Аметист | Гранат | Цитрин" = _clean_tokens "Аметист, Гранат, Цитрин" ∧
    _clean_tokens "Аметист, Гранат, Цитрин" = ["Аметист", "Гранат", "Цитрин"] ∧
    _clean_tokens "Аметист | Гранат — Цитрин" = ["Аметист", "Гранат - Цитрин"] := by
  refine ⟨by decide, by decide, by decide⟩

/-- Claim C5, counterexample: the token `24-hour` does not survive
`_clean_tokens` undamaged — the negative lookbehind only blocks matches whose
first digit is preceded by another digit, so `24-` itself is stripped. -/
theorem C5_cex :
    _clean_tokens "24-hour" ≠ ["24-hour"] ∧ _clean_tokens "24-hour" = ["hour"] := by
  constructor
  · decide
  · decide

/-- Claim C5, amended: a one-or-two-digit number followed by `.`, `)`, `:`
or `-` is removed together with that punctuation whenever its first digit is
not preceded by another digit; this strips genuine enumeration markers such
as `1.`, but it also damages `24-hour` (which becomes `hour`), while a
longer number such as `124.` survives because every candidate match inside
it is digit-preceded. -/
theorem C5_enum_marker_stripping :
    _clean_tokens "1. Аметист" = ["Аметист"] ∧
    _clean_tokens "24-hour" = ["hour"] ∧
    _clean_tokens "124." = ["124."] := by
  refine ⟨by decide, by decide, by decide⟩

/-- Claim C7, counterexample: `parse_potentials_9` performs no default
padding — the two-token input comes back with just two entries, not nine. -/
theorem C7_cex :
    parse_potentials_9 "Аметист, Гранат" = ["Аметист", "Гранат"] ∧
    (parse_potentials_9 "Аметист, Гранат").length ≠ 9 := by
  constructor
  · decide
  · decide

/-- Claim C7, amended: the deterministic pad-without-duplicates behaviour
belongs to the token list of the first `normalize_potentials_text`, which
keeps the two user tokens and appends the remaining defaults in order,
skipping (case-insensitively) the defaults already present — also when the
user wrote them in lowercase. -/
theorem C7_partial_padding :
    normalize_potentials_tokens "Аметист, Гранат" =
      ["Аметист", "Гранат", "Цитрин", "Сапфир", "Гелиодор", "Изумруд",
       "Янтарь", "Шунгит", "Рубин"] ∧
    normalize_potentials_tokens "аметист, гранат" =
      ["аметист", "гранат", "Цитрин", "Сапфир", "Гелиодор", "Изумруд",
       "Янтарь", "Шунгит", "Рубин"] := by
  refine ⟨by decide, by decide⟩

/-- Claim C10: the two module-level definitions of
`normalize_potentials_text` are not extensionally equal — on
`"Аметист, Гранат"` the first builds the padded 3x3 summary while the
second (the one Python binds to the name and `ai_generate_focus` calls)
merely reflows the two tokens onto separate lines. -/
theorem C10_two_definitions_differ :
    normalize_potentials_text_first "Аметист, Гранат" ≠
      normalize_potentials_text "Аметист, Гранат" ∧
    normalize_potentials_text "Аметист, Гранат" = "Аметист\nГранат" := by
  refine ⟨by decide, by decide⟩

/-- Claim C1, counterexample: `parse_potentials_9` is not constantly
nine-element — the empty string yields zero tokens. -/
theorem C1_cex : (parse_potentials_9 "").length ≠ 9 := by decide

/-- Claim C2, counterexample: at `s = ""` the parse yields fewer than nine
entries and `build_canon_bundle` returns the empty dict (`none`) — there is
no `pos1..pos9` mapping and no re-padding with the defaults. -/
theorem C2_cex : build_canon_bundle (parse_potentials_9 "") = none := by decide

/-- Claim C2, amended: when handed at least nine entries,
`build_canon_bundle` produces a positional mapping whose keys are exactly
`pos1..pos9` covering the first nine entries in order; when handed fewer
than nine entries it returns the empty dict — it does not re-pad with the
default labels. -/
theorem C2_positional_keys (p9 : List String) :
    (9 ≤ p9.length →
      ∃ b, build_canon_bundle p9 = some b ∧
        b.pos.map Prod.fst =
          ["pos1", "pos2", "pos3", "pos4", "pos5", "pos6", "pos7", "pos8", "pos9"] ∧
        b.pos.map Prod.snd = p9.take 9) ∧
    (p9.length < 9 → build_canon_bundle p9 = none) := by
  rcases p9 with _ | ⟨a1, _ | ⟨a2, _ | ⟨a3, _ | ⟨a4, _ | ⟨a5, _ | ⟨a6, _ | ⟨a7, _ | ⟨a8, _ | ⟨a9, rest⟩⟩⟩⟩⟩⟩⟩⟩⟩
  case nil => exact ⟨fun h => by simp at h, fun _ => by simp [build_canon_bundle]⟩
  case cons.nil => exact ⟨fun h => by simp at h, fun _ => by simp [build_canon_bundle]⟩
  case cons.cons.nil => exact ⟨fun h => by simp at h, fun _ => by simp [build_canon_bundle]⟩
  case cons.cons.cons.nil =>
    exact ⟨fun h => by simp at h, fun _ => by simp [build_canon_bundle]⟩
  case cons.cons.cons.cons.nil =>
    exact ⟨fun h => by simp at h, fun _ => by simp [build_canon_bundle]⟩
  case cons.cons.cons.cons.cons.nil =>
    exact ⟨fun h => by simp at h, fun _ => by simp [build_canon_bundle]⟩
  case cons.cons.cons.cons.cons.cons.nil =>
    exact ⟨fun h => by simp at h, fun _ => by simp [build_canon_bundle]⟩
  case cons.cons.cons.cons.cons.cons.cons.nil =>
    exact ⟨fun h => by simp at h, fun _ => by simp [build_canon_bundle]⟩
  case cons.cons.cons.cons.cons.cons.cons.cons.nil =>
    exact ⟨fun h => by simp at h, fun _ => by simp [build_canon_bundle]⟩
  case cons.cons.cons.cons.cons.cons.cons.cons.cons =>
    have hb : build_canon_bundle (a1 :: a2 :: a3 :: a4 :: a5 :: a6 :: a7 :: a8 :: a9 :: rest) =
        some
          { pos := [("pos1", a1), ("pos2", a2), ("pos3", a3), ("pos4", a4), ("pos5", a5),
                    ("pos6", a6), ("pos7", a7), ("pos8", a8), ("pos9", a9)],
            canon := [("pos1", _canon_cell_1_3 a1 "perception"),
                      ("pos2", _canon_cell_1_3 a2 "motivation"),
                      ("pos3", _canon_cell_1_3 a3 "instrument"),
                      ("pos4", _canon_pos_4_5_6 a4 "4"),
                      ("pos5", _canon_pos_4_5_6 a5 "5"),
                      ("pos6", _canon_pos_4_5_6 a6 "6")] } := by
      unfold build_canon_bundle
      rw [if_neg (by simp)]
    refine ⟨fun _ => ⟨_, hb, by simp, by simp⟩, fun hlt => by simp at hlt; omega⟩

/-- A duplicate-free list contained in another list is no longer than it. -/
theorem nodup_subset_length {α : Type} [DecidableEq α] :
    ∀ (l : List α), l.Nodup → ∀ (L : List α), l ⊆ L → l.length ≤ L.length := by
  intro l
  induction l with
  | nil => intro _ L _; simp
  | cons a t ih =>
    intro hnd L hsub
    obtain ⟨hna, hnt⟩ := List.nodup_cons.mp hnd
    have ha : a ∈ L := hsub (List.mem_cons_self a t)
    have hsub2 : t ⊆ L.erase a := by
      intro x hx
      have hxa : x ≠ a := fun h => hna (h ▸ hx)
      exact (List.mem_erase_of_ne hxa).mpr (hsub (List.mem_cons_of_mem a hx))
    have h1 := ih hnt (L.erase a) hsub2
    have h2 : (L.erase a).length = L.length - 1 := List.length_erase_of_mem ha
    have h3 : 0 < L.length := List.length_pos_of_mem ha
    simp only [List.length_cons]
    omega

/-- The padding loop reaches length nine whenever it starts at most at nine
and enough defaults are fresh with respect to the fixed `existing` set. -/
theorem padLoop_length (E : List String) :
    ∀ (ds ts : List String), ts.length ≤ 9 →
      9 ≤ ts.length + (ds.filter fun n => decide (strLower n ∉ E)).length →
      (padLoop E ts ds).length = 9 := by
  intro ds
  induction ds with
  | nil =>
    intro ts h1 h2
    simp only [padLoop, List.foldl_nil]
    simp only [List.filter_nil, List.length_nil] at h2
    omega
  | cons d ds ih =>
    intro ts h1 h2
    simp only [padLoop, List.foldl_cons]
    by_cases hd : strLower d ∉ E
    · by_cases hlt : ts.length < 9
      · rw [if_pos ⟨hd, hlt⟩]
        refine ih (ts ++ [d]) ?_ ?_
        · simp; omega
        · rw [List.filter_cons_of_pos (by simpa using hd)] at h2
          simp at h2 ⊢
          omega
      · rw [if_neg (fun h => hlt h.2)]
        refine ih ts h1 ?_
        omega
    · rw [if_neg (fun h => hd h.1)]
      refine ih ts h1 ?_
      rw [List.filter_cons_of_neg (by simpa using hd)] at h2
      exact h2

/-- The lowercased default labels are pairwise distinct. -/
theorem default_lowers_nodup : (DEFAULT_NAMES.map strLower).Nodup := by decide

/-- With fewer than nine starting tokens, enough default labels are fresh
(case-insensitively absent) for the padding loop to reach nine. -/
theorem default_fresh_count (ts : List String) :
    9 ≤ ts.length +
      (DEFAULT_NAMES.filter fun n => decide (strLower n ∉ ts.map strLower)).length := by
  have hsplit :=
    DEFAULT_NAMES.length_eq_length_filter_add
      (fun n => decide (strLower n ∉ ts.map strLower))
  have hnine : DEFAULT_NAMES.length = 9 := by decide
  have hstale :
      ((DEFAULT_NAMES.filter fun n => !decide (strLower n ∉ ts.map strLower)).map strLower).length ≤
        (ts.map strLower).length := by
    refine nodup_subset_length _ ?_ _ ?_
    · exact default_lowers_nodup.sublist ((List.filter_sublist _).map strLower)
    · intro x hx
      obtain ⟨n, hn, rfl⟩ := List.mem_map.mp hx
      have := (List.mem_filter.mp hn).2
      simpa using this
  simp only [List.length_map] at hstale
  omega

/-- Claim C1, amended: `parse_potentials_9` is total but returns at most
nine tokens (possibly fewer — every exit truncates with `take 9`); the
exactly-nine guarantee claimed by the spec holds instead for the token list
of the first `normalize_potentials_text`, which truncates or pads with the
defaults to exactly nine for every input string. -/
theorem C1_parse_le_nine_normalize_eq_nine (s : String) :
    (parse_potentials_9 s).length ≤ 9 ∧ (normalize_potentials_tokens s).length = 9 := by
  constructor
  · simp only [parse_potentials_9]
    split
    · simp
    · split
      · simp
      · split
        · split
          · simp
          · simp
        · simp
  · simp only [normalize_potentials_tokens]
    split
    · rename_i h
      simp [List.length_take]
      omega
    · rename_i h
      push_neg at h
      exact padLoop_length _ _ _ (by omega) (default_fresh_count _)

/-- Characters from which the clean tokens of the truncation and identity
properties are built: anything except digits, whitespace, and the separator,
dash and punctuation characters the parsing pipeline reacts to. -/
def tokenChar (c : Char) : Bool :=
  !(c.isDigit || isPySpace c || c == ',' || c == ';' || c == '|' || c == '/' ||
    c == '•' || c == '—' || c == '–' || c == '-' || c == '.' || c == ')' ||
    c == ':' || c == '*')

/-- Unpacking of `tokenChar` into the individual character facts. -/
theorem tokenChar_spec {c : Char} (h : tokenChar c = true) :
    c.isDigit = false ∧ isPySpace c = false ∧ c ≠ ',' ∧ c ≠ ';' ∧ c ≠ '|' ∧ c ≠ '/' ∧
    c ≠ '•' ∧ c ≠ '—' ∧ c ≠ '–' ∧ c ≠ '-' ∧ c ≠ '.' ∧ c ≠ ')' ∧ c ≠ ':' ∧ c ≠ '*' := by
  simp only [tokenChar, Bool.not_eq_true', Bool.or_eq_false_iff, beq_eq_false_iff_ne] at h
  tauto

/-- Every `splitlines` boundary character is also whitespace. -/
theorem isLineBreak_isPySpace {c : Char} (h : isLineBreak c = true) : isPySpace c = true := by
  simp only [isLineBreak, Bool.or_eq_true, beq_iff_eq] at h
  rcases h with ((((((((rfl | rfl) | rfl) | rfl) | rfl) | rfl) | rfl) | rfl) | rfl) | rfl <;> decide

/-- A token character is not in `_clean_pot_name`'s strip set. -/
theorem tokenChar_not_strip {c : Char} (h : tokenChar c = true) :
    potStripSet.contains c = false := by
  obtain ⟨hd, hs, h1, h2, h3, h4, h5, h6, h7, h8, h9, h10, h11, h12⟩ := tokenChar_spec h
  simp only [potStripSet, List.contains_eq_any_beq, List.any_eq_false, beq_eq_false_iff_ne,
    List.mem_cons, List.not_mem_nil, or_false]
  intro x hx
  intro hxc
  rw [beq_iff_eq] at hxc
  subst hxc
  rcases hx with rfl | rfl | rfl | rfl | rfl | rfl | rfl | rfl | rfl | rfl | rfl | rfl <;>
    simp_all <;> exact absurd hs (by decide)

/-- `dropWhile` is the identity when no element satisfies the predicate. -/
theorem dropWhile_eq_self_of {p : Char → Bool} :
    ∀ {l : List Char}, (∀ c ∈ l, p c = false) → l.dropWhile p = l := by
  intro l h
  cases l with
  | nil => rfl
  | cons c t => simp [List.dropWhile_cons, h c (List.mem_cons_self c t)]

/-- `takeWhile` is the identity when every element satisfies the predicate. -/
theorem takeWhile_eq_self_of {p : Char → Bool} :
    ∀ {l : List Char}, (∀ c ∈ l, p c = true) → l.takeWhile p = l := by
  intro l
  induction l with
  | nil => intro _; rfl
  | cons c t ih =>
    intro h
    rw [List.takeWhile_cons, h c (List.mem_cons_self c t)]
    simp [ih fun d hd => h d (List.mem_cons_of_mem c hd)]

/-- Both-ends stripping is the identity when no character is strippable. -/
theorem stripWith_eq_self_of {p : Char → Bool} {l : List Char}
    (h : ∀ c ∈ l, p c = false) : stripWith p l = l := by
  unfold stripWith
  rw [dropWhile_eq_self_of h, dropWhile_eq_self_of (fun c hc => h c (List.mem_reverse.mp hc)),
    List.reverse_reverse]

/-- `pyStrip` is the identity on whitespace-free strings. -/
theorem pyStrip_eq_self_of {l : List Char} (h : ∀ c ∈ l, isPySpace c = false) :
    pyStrip l = l := stripWith_eq_self_of h

/-- `map` is the identity when the function fixes every element. -/
theorem map_eq_self_of {α : Type} {f : α → α} :
    ∀ {l : List α}, (∀ a ∈ l, f a = a) → l.map f = l := by
  intro l h
  rw [List.map_congr_left h]
  exact List.map_id _

/-- Characters of a joined list come from the separator or from a chunk. -/
theorem mem_joinSep {sep : Char} :
    ∀ (ls : List (List Char)) (c : Char), c ∈ joinSep sep ls → c = sep ∨ ∃ t ∈ ls, c ∈ t
  | [], c, h => by simp [joinSep] at h
  | [t], c, h => Or.inr ⟨t, by simp, by simpa [joinSep] using h⟩
  | t :: t2 :: ts, c, h => by
    simp only [joinSep, List.mem_append, List.mem_cons] at h
    rcases h with h | h | h
    · exact Or.inr ⟨t, List.mem_cons_self t _, h⟩
    · exact Or.inl h
    · rcases mem_joinSep (t2 :: ts) c h with h | ⟨u, hu, hcu⟩
      · exact Or.inl h
      · exact Or.inr ⟨u, List.mem_cons_of_mem t hu, hcu⟩

/-- `map` distributes through `joinSep`. -/
theorem map_joinSep (f : Char → Char) (sep : Char) :
    ∀ (ls : List (List Char)), (joinSep sep ls).map f = joinSep (f sep) (ls.map (List.map f))
  | [] => by simp [joinSep]
  | [t] => by simp [joinSep]
  | t :: t2 :: ts => by
    simp only [joinSep, List.map_append, List.map_cons]
    rw [map_joinSep f sep (t2 :: ts)]
    rfl

/-- `pySplitlinesAux` on a boundary-free tail: the pending line is the
whole remainder. -/
theorem pySplitlinesAux_nobreak :
    ∀ (t : List Char), (∀ c ∈ t, isLineBreak c = false) → ∀ (acc : List Char),
      pySplitlinesAux t false acc =
        if (acc.reverse ++ t).isEmpty then [] else [acc.reverse ++ t] := by
  intro t
  induction t with
  | nil =>
    intro _ acc
    simp [pySplitlinesAux]
  | cons c t ih =>
    intro h acc
    have hc : isLineBreak c = false := h c (List.mem_cons_self c t)
    have hcr : c ≠ '\r' := fun hh => by rw [hh] at hc; exact absurd hc (by decide)
    have hcn : c ≠ '\n' := fun hh => by rw [hh] at hc; exact absurd hc (by decide)
    rw [pySplitlinesAux]
    rw [if_neg (fun hh => hcn hh.1), if_neg hcr, if_neg (by simp [hc])]
    rw [ih (fun d hd => h d (List.mem_cons_of_mem c hd)) (c :: acc)]
    simp

/-- `pySplitlinesAux` on a boundary-free chunk followed by a newline: the
chunk is emitted and scanning restarts after the newline. -/
theorem pySplitlinesAux_chunk :
    ∀ (t : List Char), (∀ c ∈ t, isLineBreak c = false) → ∀ (acc rest : List Char),
      pySplitlinesAux (t ++ '\n' :: rest) false acc =
        (acc.reverse ++ t) :: pySplitlinesAux rest false [] := by
  intro t
  induction t with
  | nil =>
    intro _ acc rest
    rw [List.nil_append, pySplitlinesAux]
    rw [if_neg (by simp), if_neg (by decide), if_pos (by decide)]
    simp
  | cons c t ih =>
    intro h acc rest
    have hc : isLineBreak c = false := h c (List.mem_cons_self c t)
    have hcr : c ≠ '\r' := fun hh => by rw [hh] at hc; exact absurd hc (by decide)
    have hcn : c ≠ '\n' := fun hh => by rw [hh] at hc; exact absurd hc (by decide)
    rw [List.cons_append, pySplitlinesAux]
    rw [if_neg (fun hh => hcn hh.1), if_neg hcr, if_neg (by simp [hc])]
    rw [ih (fun d hd => h d (List.mem_cons_of_mem c hd)) (c :: acc) rest]
    simp

/-- `pySplitlines` inverts `joinSep '\n'` on nonempty boundary-free chunks. -/
theorem pySplitlines_joinSep :
    ∀ (ls : List (List Char)), ls ≠ [] →
      (∀ t ∈ ls, t ≠ [] ∧ ∀ c ∈ t, isLineBreak c = false) →
      pySplitlines (joinSep '\n' ls) = ls
  | [], h, _ => absurd rfl h
  | [t], _, hcl => by
    obtain ⟨hne, hnb⟩ := hcl t (List.mem_cons_self t [])
    unfold pySplitlines
    rw [show joinSep '\n' [t] = t from rfl, pySplitlinesAux_nobreak t hnb []]
    simp [hne]
  | t :: t2 :: ts, _, hcl => by
    obtain ⟨hne, hnb⟩ := hcl t (List.mem_cons_self t _)
    unfold pySplitlines
    rw [show joinSep '\n' (t :: t2 :: ts) = t ++ '\n' :: joinSep '\n' (t2 :: ts) from rfl]
    rw [pySplitlinesAux_chunk t hnb [] (joinSep '\n' (t2 :: ts))]
    have := pySplitlines_joinSep (t2 :: ts) (by simp)
      (fun u hu => hcl u (List.mem_cons_of_mem t hu))
    unfold pySplitlines at this
    rw [this]
    simp

/-- With no digits in the string, the numbered-entry attempt fails at the
digit literal for every start position. -/
theorem matchNumberedAt_none (cs : List Char) (i p1 : Nat)
    (hd : (digitChar i).isDigit = true) (hnod : ∀ c ∈ cs, c.isDigit = false) :
    matchNumberedAt cs i p1 = none := by
  unfold matchNumberedAt
  rw [if_neg]
  intro hh
  have hmem : digitChar i ∈ cs := List.getElem?_mem hh
  exact absurd hd (by rw [hnod _ hmem]; simp)

/-- With no digits in the string, the numbered-entry search fails. -/
theorem searchNumbered_none (cs : List Char) (i : Nat)
    (hd : (digitChar i).isDigit = true) (hnod : ∀ c ∈ cs, c.isDigit = false) :
    searchNumbered cs i = none := by
  unfold searchNumbered
  refine List.findSome?_eq_none_iff.mpr fun p _ => ?_
  refine List.findSome?_eq_none_iff.mpr fun p1 _ => ?_
  exact matchNumberedAt_none cs i p1 hd hnod

/-- With no digits in the string, the numbered-extraction pass is empty. -/
theorem numberedTokens_nil (cs : List Char) (hnod : ∀ c ∈ cs, c.isDigit = false) :
    numberedTokens cs = [] := by
  unfold numberedTokens
  rw [show List.range' 1 9 = [1, 2, 3, 4, 5, 6, 7, 8, 9] from by decide]
  simp [searchNumbered_none cs 1 (by decide) hnod,
    searchNumbered_none cs 2 (by decide) hnod,
    searchNumbered_none cs 3 (by decide) hnod,
    searchNumbered_none cs 4 (by decide) hnod,
    searchNumbered_none cs 5 (by decide) hnod,
    searchNumbered_none cs 6 (by decide) hnod,
    searchNumbered_none cs 7 (by decide) hnod,
    searchNumbered_none cs 8 (by decide) hnod,
    searchNumbered_none cs 9 (by decide) hnod]

/-- `takeWhile` is empty when no element satisfies the digit predicate. -/
theorem takeWhile_eq_nil_of {l : List Char} (h : ∀ c ∈ l, c.isDigit = false) :
    l.takeWhile Char.isDigit = [] := by
  cases l with
  | nil => rfl
  | cons c t => simp [List.takeWhile_cons, h c (List.mem_cons_self c t)]

/-- Leading-enumeration stripping is the identity on digit-free lines. -/
theorem stripLeadNum_eq_self {l : List Char} (h : ∀ c ∈ l, c.isDigit = false) :
    stripLeadNum l = l := by
  unfold stripLeadNum
  rw [takeWhile_eq_nil_of h]
  simp

/-- `filterMap` is the identity when the function keeps every element. -/
theorem filterMap_eq_self_of {α : Type} {f : α → Option α} :
    ∀ {l : List α}, (∀ a ∈ l, f a = some a) → l.filterMap f = l := by
  intro l
  induction l with
  | nil => intro _; rfl
  | cons a t ih =>
    intro h
    rw [List.filterMap_cons, h a (List.mem_cons_self a t),
      ih fun b hb => h b (List.mem_cons_of_mem a hb)]

/-- `filter` is the identity when every element passes. -/
theorem filter_eq_self_of {α : Type} {p : α → Bool} {l : List α}
    (h : ∀ a ∈ l, p a = true) : l.filter p = l :=
  List.filter_eq_self.mpr h

/-- Token characters are distinguishable from any non-token character. -/
theorem tokenChar_beq_false {c x : Char} (h : tokenChar c = true) (hx : tokenChar x = false) :
    (c == x) = false := by
  rw [beq_eq_false_iff_ne]
  intro he
  rw [he, hx] at h
  cases h

/-- Core of the truncation and identity properties: on a comma-joined list
of nonempty tokens made of plain token characters, `parse_potentials_9`
returns exactly the first nine tokens whenever at least nine are given. -/
theorem parse_clean_take (ts : List String) (hne : ts ≠ [])
    (hcl : ∀ t ∈ ts, t.data ≠ [] ∧ ∀ c ∈ t.data, tokenChar c = true)
    (h9 : 9 ≤ ts.length) :
    parse_potentials_9 (String.mk (joinSep ',' (ts.map String.data))) = ts.take 9 := by
  have htkcl : ∀ t ∈ ts.map String.data, t ≠ [] ∧ ∀ c ∈ t, tokenChar c = true := by
    intro t ht
    obtain ⟨u, hu, rfl⟩ := List.mem_map.mp ht
    exact hcl u hu
  have hchar : ∀ c ∈ joinSep ',' (ts.map String.data), c = ',' ∨ tokenChar c = true := by
    intro c hc
    rcases mem_joinSep (ts.map String.data) c hc with h | ⟨t, ht, hct⟩
    · exact Or.inl h
    · exact Or.inr ((htkcl t ht).2 c hct)
  have hnospace : ∀ c ∈ joinSep ',' (ts.map String.data), isPySpace c = false := by
    intro c hc
    rcases hchar c hc with rfl | h
    · decide
    · exact (tokenChar_spec h).2.1
  have hnodigit : ∀ c ∈ joinSep ',' (ts.map String.data), c.isDigit = false := by
    intro c hc
    rcases hchar c hc with rfl | h
    · decide
    · exact (tokenChar_spec h).1
  have hsne : joinSep ',' (ts.map String.data) ≠ [] := by
    cases ts with
    | nil => exact absurd rfl hne
    | cons t rest =>
      cases rest with
      | nil =>
        have := (hcl t (List.mem_cons_self t [])).1
        simpa [joinSep] using this
      | cons t2 rest2 => simp [joinSep]
  have htokmap : ∀ (f : Char → Char), (∀ c, tokenChar c = true → f c = c) →
      (ts.map String.data).map (List.map f) = ts.map String.data := by
    intro f hf
    refine map_eq_self_of ?_
    intro t ht
    exact map_eq_self_of fun c hc => hf c ((htkcl t ht).2 c hc)
  simp only [parse_potentials_9]
  rw [if_neg hsne]
  rw [pyStrip_eq_self_of hnospace]
  rw [numberedTokens_nil _ hnodigit]
  rw [if_neg (by simp)]
  have hm1 : (joinSep ',' (ts.map String.data)).map (fun c => if c == '•' then '\n' else c) =
      joinSep ',' (ts.map String.data) := by
    rw [map_joinSep]
    rw [htokmap _ fun c hc => by rw [tokenChar_beq_false hc (by decide)]; simp]
    rfl
  have hm2 : (joinSep ',' (ts.map String.data)).map (fun c => if c == ';' then '\n' else c) =
      joinSep ',' (ts.map String.data) := by
    rw [map_joinSep]
    rw [htokmap _ fun c hc => by rw [tokenChar_beq_false hc (by decide)]; simp]
    rfl
  have hm3 : (joinSep ',' (ts.map String.data)).map (fun c => if c == ',' then '\n' else c) =
      joinSep '\n' (ts.map String.data) := by
    rw [map_joinSep]
    rw [htokmap _ fun c hc => by rw [tokenChar_beq_false hc (by decide)]; simp]
    rfl
  rw [hm1, hm2, hm3]
  have hsplit : pySplitlines (joinSep '\n' (ts.map String.data)) = ts.map String.data := by
    refine pySplitlines_joinSep _ (by simpa using hne) ?_
    intro t ht
    refine ⟨(htkcl t ht).1, fun c hc => ?_⟩
    cases hlb : isLineBreak c with
    | false => rfl
    | true =>
      have h1 := isLineBreak_isPySpace hlb
      have h2 := (tokenChar_spec ((htkcl t ht).2 c hc)).2.1
      rw [h1] at h2
      cases h2
  rw [hsplit]
  rw [map_eq_self_of fun t ht =>
    pyStrip_eq_self_of fun c hc => (tokenChar_spec ((htkcl t ht).2 c hc)).2.1]
  have hfil : List.filter (fun l => !l.isEmpty) (ts.map String.data) = ts.map String.data := by
    refine filter_eq_self_of fun t ht => ?_
    rw [Bool.not_eq_true', List.isEmpty_eq_false]
    exact (htkcl t ht).1
  rw [hfil]
  have hclean1 : (List.filterMap (fun ln =>
      if beforeDashes (pyStrip (stripLeadNum ln)) = [] then none
      else some (cleanPotNameL (beforeDashes (pyStrip (stripLeadNum ln)))))
      (ts.map String.data)) = ts.map String.data := by
    refine filterMap_eq_self_of ?_
    intro t ht
    obtain ⟨hne2, htc⟩ := htkcl t ht
    have hsl : stripLeadNum t = t := stripLeadNum_eq_self fun c hc => (tokenChar_spec (htc c hc)).1
    have hps : pyStrip t = t := pyStrip_eq_self_of fun c hc => (tokenChar_spec (htc c hc)).2.1
    have hem : List.takeWhile (fun c => c != '—') t = t := by
      refine takeWhile_eq_self_of fun c hc => ?_
      rw [bne_iff_ne]
      exact (tokenChar_spec (htc c hc)).2.2.2.2.2.2.2.1
    have hhy : List.takeWhile (fun c => c != '-') t = t := by
      refine takeWhile_eq_self_of fun c hc => ?_
      rw [bne_iff_ne]
      exact (tokenChar_spec (htc c hc)).2.2.2.2.2.2.2.2.2.1
    have hbd : beforeDashes t = t := by
      unfold beforeDashes
      rw [hem, hhy, hps]
    have hcp : cleanPotNameL t = t := by
      unfold cleanPotNameL
      rw [stripWith_eq_self_of fun c hc => tokenChar_not_strip (htc c hc), hps]
    rw [hsl, hps, hbd, hcp, if_neg hne2]
  rw [hclean1, hfil]
  rw [if_neg fun hcond => absurd hcond.1 (by simp only [List.length_map]; omega)]
  rw [← List.map_take, List.map_map]
  exact map_eq_self_of fun t _ => string_mk_data t

/-- Claim C8: on a comma-joined list of nine distinct nonempty tokens made
only of plain token characters (no digits, separators, dashes or other
characters the pipeline reacts to), `parse_potentials_9` is the identity. -/
theorem C8_identity_on_clean_input (ts : List String) (h9 : ts.length = 9)
    (_hnd : ts.Nodup)
    (hcl : ∀ t ∈ ts, t.data ≠ [] ∧ ∀ c ∈ t.data, tokenChar c = true) :
    parse_potentials_9 (String.mk (joinSep ',' (ts.map String.data))) = ts := by
  have h := parse_clean_take ts (by intro hh; rw [hh] at h9; simp at h9) hcl (by omega)
  rw [h, ← h9, List.take_length]

/-- Claim C8, witness at nine concrete one-letter tokens. -/
theorem C8_witness :
    parse_potentials_9 (String.mk (joinSep ','
      ((["A", "B", "C", "D", "E", "F", "G", "H", "I"] : List String).map String.data))) =
      ["A", "B", "C", "D", "E", "F", "G", "H", "I"] :=
  C8_identity_on_clean_input ["A", "B", "C", "D", "E", "F", "G", "H", "I"]
    (by decide) (by decide) (by decide)

/-- Claim C6: on a comma-joined list of twelve distinct nonempty clean
tokens, `parse_potentials_9` returns exactly the first nine in order,
silently discarding the trailing three. -/
theorem C6_truncation_to_first_nine (ts : List String) (h12 : ts.length = 12)
    (_hnd : ts.Nodup)
    (hcl : ∀ t ∈ ts, t.data ≠ [] ∧ ∀ c ∈ t.data, tokenChar c = true) :
    parse_potentials_9 (String.mk (joinSep ',' (ts.map String.data))) = ts.take 9 :=
  parse_clean_take ts (by intro hh; rw [hh] at h12; simp at h12) hcl (by omega)

/-- Claim C6, witness at twelve concrete tokens: the first nine come back. -/
theorem C6_witness :
    parse_potentials_9 (String.mk (joinSep ','
      ((["Аметист", "Гранат", "Цитрин", "Сапфир", "Гелиодор", "Изумруд",
         "Янтарь", "Шунгит", "Рубин", "Опал", "Агат", "Оникс"] : List String).map String.data))) =
      ["Аметист", "Гранат", "Цитрин", "Сапфир", "Гелиодор", "Изумруд",
       "Янтарь", "Шунгит", "Рубин"] :=
  C6_truncation_to_first_nine
    ["Аметист", "Гранат", "Цитрин", "Сапфир", "Гелиодор", "Изумруд",
     "Янтарь", "Шунгит", "Рубин", "Опал", "Агат", "Оникс"]
    (by decide) (by decide) (by decide)

/-- String concatenation concatenates the character lists. -/
theorem string_data_append (a b : String) : (a ++ b).data = a.data ++ b.data := by
  cases a
  cases b
  rfl

/-- A formatted row built from break-free pieces is break-free. -/
theorem row_no_break (A B C u v w : List Char)
    (hA : ∀ d ∈ A, isLineBreak d = false) (hB : ∀ d ∈ B, isLineBreak d = false)
    (hC : ∀ d ∈ C, isLineBreak d = false) (hu : ∀ d ∈ u, isLineBreak d = false)
    (hv : ∀ d ∈ v, isLineBreak d = false) (hw : ∀ d ∈ w, isLineBreak d = false) :
    ∀ c ∈ A ++ u ++ B ++ v ++ C ++ w, isLineBreak c = false := by
  intro c hc
  simp only [List.mem_append] at hc
  rcases hc with ((((hc | hc) | hc) | hc) | hc) | hc
  exacts [hA c hc, hu c hc, hB c hc, hv c hc, hC c hc, hw c hc]

/-- Pipe count of a formatted row: one pipe from each of the two middle
fixed separators, none from the pipe-free tokens. -/
theorem row_count_pipes (A B C u v w : List Char)
    (hA : A.count '|' = 0) (hB : B.count '|' = 1) (hC : C.count '|' = 1)
    (hu : '|' ∉ u) (hv : '|' ∉ v) (hw : '|' ∉ w) :
    (A ++ u ++ B ++ v ++ C ++ w).count '|' = 2 := by
  simp [List.count_append, hA, hB, hC, List.count_eq_zero.mpr hu,
    List.count_eq_zero.mpr hv, List.count_eq_zero.mpr hw]

/-- Claim C9: the three-row formatter applied to nine tokens that contain
no pipe character (and, as every pipeline Token does, no line-break
character) yields exactly three lines, each containing exactly two `|`
separators. -/
theorem C9_three_rows_two_pipes (t1 t2 t3 t4 t5 t6 t7 t8 t9 : String)
    (h : ∀ t ∈ [t1, t2, t3, t4, t5, t6, t7, t8, t9], ∀ c ∈ t.data,
      c ≠ '|' ∧ isLineBreak c = false) :
    (pySplitlines (build_three_rows [t1, t2, t3, t4, t5, t6, t7, t8, t9]).data).length = 3 ∧
    ∀ l ∈ pySplitlines (build_three_rows [t1, t2, t3, t4, t5, t6, t7, t8, t9]).data,
      l.count '|' = 2 := by
  have htnb : ∀ t ∈ [t1, t2, t3, t4, t5, t6, t7, t8, t9], ∀ c ∈ t.data,
      isLineBreak c = false := fun t ht c hc => (h t ht c hc).2
  have htnp : ∀ t ∈ [t1, t2, t3, t4, t5, t6, t7, t8, t9], '|' ∉ t.data := by
    intro t ht hmem
    exact (h t ht '|' hmem).1 rfl
  have hd : (build_three_rows [t1, t2, t3, t4, t5, t6, t7, t8, t9]).data =
      joinSep '
'
        ["1 ряд: 1. ".data ++ t1.data ++ " | 2. ".data ++ t2.data ++ " | 3. ".data ++ t3.data,
         "2 ряд: 4. ".data ++ t4.data ++ " | 5. ".data ++ t5.data ++ " | 6. ".data ++ t6.data,
         "3 ряд: 7. ".data ++ t7.data ++ " | 8. ".data ++ t8.data ++ " | 9. ".data ++ t9.data] := by
    simp only [build_three_rows, joinSep, string_data_append, List.append_assoc]
    simp [List.append_assoc]
  have hsplit : pySplitlines (build_three_rows [t1, t2, t3, t4, t5, t6, t7, t8, t9]).data =
      ["1 ряд: 1. ".data ++ t1.data ++ " | 2. ".data ++ t2.data ++ " | 3. ".data ++ t3.data,
       "2 ряд: 4. ".data ++ t4.data ++ " | 5. ".data ++ t5.data ++ " | 6. ".data ++ t6.data,
       "3 ряд: 7. ".data ++ t7.data ++ " | 8. ".data ++ t8.data ++ " | 9. ".data ++ t9.data] := by
    rw [hd]
    refine pySplitlines_joinSep _ (by simp) ?_
    intro r hr
    simp only [List.mem_cons, List.not_mem_nil, or_false] at hr
    constructor
    · rcases hr with rfl | rfl | rfl <;> · intro hnil; simp at hnil
    · rcases hr with rfl | rfl | rfl
      · exact row_no_break _ _ _ _ _ _ (by decide) (by decide) (by decide)
          (htnb t1 (by simp)) (htnb t2 (by simp)) (htnb t3 (by simp))
      · exact row_no_break _ _ _ _ _ _ (by decide) (by decide) (by decide)
          (htnb t4 (by simp)) (htnb t5 (by simp)) (htnb t6 (by simp))
      · exact row_no_break _ _ _ _ _ _ (by decide) (by decide) (by decide)
          (htnb t7 (by simp)) (htnb t8 (by simp)) (htnb t9 (by simp))
  rw [hsplit]
  refine ⟨rfl, ?_⟩
  intro l hl
  simp only [List.mem_cons, List.not_mem_nil, or_false] at hl
  rcases hl with rfl | rfl | rfl
  · exact row_count_pipes _ _ _ _ _ _ (by decide) (by decide) (by decide)
      (htnp t1 (by simp)) (htnp t2 (by simp)) (htnp t3 (by simp))
  · exact row_count_pipes _ _ _ _ _ _ (by decide) (by decide) (by decide)
      (htnp t4 (by simp)) (htnp t5 (by simp)) (htnp t6 (by simp))
  · exact row_count_pipes _ _ _ _ _ _ (by decide) (by decide) (by decide)
      (htnp t7 (by simp)) (htnp t8 (by simp)) (htnp t9 (by simp))

/-- Claim C2, witness at the nine default labels: the bundle exists, its
positional keys are exactly `pos1..pos9`, and its values are the labels. -/
theorem C2_witness :
    ∃ b, build_canon_bundle
        ["Аметист", "Гранат", "Цитрин", "Сапфир", "Гелиодор", "Изумруд",
         "Янтарь", "Шунгит", "Рубин"] = some b ∧
      b.pos.map Prod.fst =
        ["pos1", "pos2", "pos3", "pos4", "pos5", "pos6", "pos7", "pos8", "pos9"] ∧
      b.pos.map Prod.snd =
        (["Аметист", "Гранат", "Цитрин", "Сапфир", "Гелиодор", "Изумруд",
          "Янтарь", "Шунгит", "Рубин"] : List String).take 9 :=
  (C2_positional_keys
    ["Аметист", "Гранат", "Цитрин", "Сапфир", "Гелиодор", "Изумруд",
     "Янтарь", "Шунгит", "Рубин"]).1 (by decide)

/-- Claim C9, witness at the nine default labels. -/
theorem C9_witness :
    (pySplitlines (build_three_rows
      ["Аметист", "Гранат", "Цитрин", "Сапфир", "Гелиодор", "Изумруд",
       "Янтарь", "Шунгит", "Рубин"]).data).length = 3 ∧
    ∀ l ∈ pySplitlines (build_three_rows
      ["Аметист", "Гранат", "Цитрин", "Сапфир", "Гелиодор", "Изумруд",
       "Янтарь", "Шунгит", "Рубин"]).data, l.count '|' = 2 :=
  C9_three_rows_two_pipes "Аметист" "Гранат" "Цитрин" "Сапфир" "Гелиодор" "Изумруд"
    "Янтарь" "Шунгит" "Рубин" (by decide)
